import Mathlib

/-!
# Verification of the Subcults Jetstream indexer client

A shallow embedding of `internal/indexer/client.go` (package `indexer`):
the resilient WebSocket client with exponential backoff, jitter, a
mutex-guarded connection handle, and a read loop that forwards messages
to a caller-supplied handler.

Modelling conventions:
* `time.Duration` values (int64 nanoseconds) are `ℤ`.
* The float64 arithmetic of `computeBackoff` is embedded exactly over `ℚ`
  (the idealized real-number semantics of the float expressions); the final
  Go conversion `time.Duration(backoff)` truncates toward zero and is
  modelled by `durationOfRat`.
* `rand.Float64()` returns a draw in `[0, 1)`; draws are supplied as
  explicit `ℚ` arguments / an environment stream.
* The context is modelled by a cancellation budget: the number of
  cancellation checks that still observe "not cancelled" before every
  later check observes "cancelled".  `ctx.Err()` is the environment's
  `ctxErr` value.
* Logging is not modelled (it does not affect state or control flow).
-/

namespace Subcults.Indexer

/-- Configuration of the Jetstream client (`Config` in the Go source):
endpoint URL, base retry delay, maximum retry delay (both `time.Duration`,
i.e. integer nanoseconds) and the jitter fraction (float64). -/
structure Config where
  url : String
  baseDelay : ℤ
  maxDelay : ℤ
  jitterFactor : ℚ
deriving DecidableEq, Repr

/-- Go's conversion `time.Duration(x)` of a float64 `x` truncates toward
zero; on our exact rationals this is floor for nonnegative values and
negated floor of the negation otherwise. -/
def durationOfRat (q : ℚ) : ℤ :=
  if q < 0 then -(Int.floor (-q)) else Int.floor q

/-- The float arithmetic of `computeBackoff`, exactly over `ℚ`:
`backoff := float64(BaseDelay) * 2^reconnectCount`; cap at `MaxDelay`;
if `JitterFactor > 0`, `jitter := (u - 0.5) * JitterFactor` and
`backoff := backoff * (1 + jitter)` where `u` is the `rand.Float64()` draw. -/
def computeBackoffRat (cfg : Config) (reconnectCount : ℕ) (u : ℚ) : ℚ :=
  let backoff : ℚ := (cfg.baseDelay : ℚ) * 2 ^ reconnectCount
  let backoff := if (cfg.maxDelay : ℚ) < backoff then (cfg.maxDelay : ℚ) else backoff
  if 0 < cfg.jitterFactor then
    let jitter := (u - 1/2) * cfg.jitterFactor
    backoff * (1 + jitter)
  else backoff

/-- `computeBackoff` from the Go source: the capped, jittered exponential
backoff, returned as a `time.Duration` (the final float-to-int conversion
truncates toward zero). `u` is the `rand.Float64()` draw used by this call. -/
def computeBackoff (cfg : Config) (reconnectCount : ℕ) (u : ℚ) : ℤ :=
  durationOfRat (computeBackoffRat cfg reconnectCount u)

/-- The pre-jitter ("raw") delay: `min(baseDelay * 2^n, maxDelay)`. -/
def rawDelay (cfg : Config) (n : ℕ) : ℤ :=
  min (cfg.baseDelay * 2 ^ n) cfg.maxDelay

theorem durationOfRat_intCast (z : ℤ) : durationOfRat (z : ℚ) = z := by
  unfold durationOfRat
  split
  · rw [← Int.cast_neg, Int.floor_intCast]
    ring
  · simp

theorem computeBackoffRat_nojitter (cfg : Config) (hf : cfg.jitterFactor = 0)
    (n : ℕ) (u : ℚ) : computeBackoffRat cfg n u = (rawDelay cfg n : ℚ) := by
  unfold computeBackoffRat rawDelay
  rw [hf]
  simp only [lt_self_iff_false, if_false]
  rcases le_or_lt ((cfg.baseDelay : ℚ) * 2 ^ n) (cfg.maxDelay : ℚ) with h | h
  · rw [if_neg (not_lt.mpr h)]
    have hz : (cfg.baseDelay : ℤ) * 2 ^ n ≤ cfg.maxDelay := by exact_mod_cast h
    rw [min_eq_left hz]
    push_cast
    ring
  · rw [if_pos h]
    have hz : (cfg.maxDelay : ℤ) ≤ cfg.baseDelay * 2 ^ n := le_of_lt (by exact_mod_cast h)
    rw [min_eq_right hz]

theorem computeBackoff_nojitter (cfg : Config) (hf : cfg.jitterFactor = 0)
    (n : ℕ) (u : ℚ) : computeBackoff cfg n u = rawDelay cfg n := by
  unfold computeBackoff
  rw [computeBackoffRat_nojitter cfg hf n u, durationOfRat_intCast]

theorem rawDelay_mono (cfg : Config) (hb : 0 ≤ cfg.baseDelay) {n m : ℕ}
    (h : n ≤ m) : rawDelay cfg n ≤ rawDelay cfg m := by
  unfold rawDelay
  exact min_le_min (by
    apply mul_le_mul_of_nonneg_left _ hb
    exact pow_le_pow_right₀ (by norm_num) h) le_rfl

theorem rawDelay_nonneg (cfg : Config) (hb : 0 ≤ cfg.baseDelay)
    (hbm : cfg.baseDelay ≤ cfg.maxDelay) (n : ℕ) : 0 ≤ rawDelay cfg n := by
  unfold rawDelay
  rcases min_cases (cfg.baseDelay * 2 ^ n) cfg.maxDelay with ⟨h, _⟩ | ⟨h, _⟩ <;> rw [h]
  · positivity
  · exact le_trans hb hbm

theorem capped_eq_rawDelay (cfg : Config) (n : ℕ) :
    (if (cfg.maxDelay : ℚ) < (cfg.baseDelay : ℚ) * 2 ^ n then (cfg.maxDelay : ℚ)
      else (cfg.baseDelay : ℚ) * 2 ^ n) = (rawDelay cfg n : ℚ) := by
  unfold rawDelay
  rcases le_or_lt ((cfg.baseDelay : ℚ) * 2 ^ n) (cfg.maxDelay : ℚ) with h | h
  · rw [if_neg (not_lt.mpr h)]
    have hz : (cfg.baseDelay : ℤ) * 2 ^ n ≤ cfg.maxDelay := by exact_mod_cast h
    rw [min_eq_left hz]
    push_cast
    ring
  · rw [if_pos h]
    have hz : (cfg.maxDelay : ℤ) ≤ cfg.baseDelay * 2 ^ n := le_of_lt (by exact_mod_cast h)
    rw [min_eq_right hz]

/-- With jitter on, the pre-truncation value is `raw * (1 + (u - 1/2) * f)`. -/
theorem computeBackoffRat_jitter (cfg : Config) (hf : 0 < cfg.jitterFactor)
    (n : ℕ) (u : ℚ) :
    computeBackoffRat cfg n u
      = (rawDelay cfg n : ℚ) * (1 + (u - 1/2) * cfg.jitterFactor) := by
  unfold computeBackoffRat
  simp only [hf, if_true]
  rw [capped_eq_rawDelay cfg n]

theorem durationOfRat_eq_floor (q : ℚ) (h : 0 ≤ q) : durationOfRat q = ⌊q⌋ := by
  unfold durationOfRat
  rw [if_neg (not_lt.mpr h)]

theorem durationOfRat_le (q : ℚ) (h : 0 ≤ q) : (durationOfRat q : ℚ) ≤ q := by
  rw [durationOfRat_eq_floor q h]
  exact Int.floor_le q

theorem durationOfRat_gt (q : ℚ) (h : 0 ≤ q) : q - 1 < (durationOfRat q : ℚ) := by
  rw [durationOfRat_eq_floor q h]
  exact Int.sub_one_lt_floor q

/-- With jitter active and just the spec's configuration invariants, the
pre-truncation backoff value lies in `[raw*(1-f/2), raw*(1+f/2)]`. -/
theorem computeBackoffRat_jitter_bounds (cfg : Config) (hb : 0 ≤ cfg.baseDelay)
    (hbm : cfg.baseDelay ≤ cfg.maxDelay) (hf : 0 < cfg.jitterFactor)
    (n : ℕ) (u : ℚ) (hu0 : 0 ≤ u) (hu1 : u < 1) :
    (rawDelay cfg n : ℚ) * (1 - cfg.jitterFactor / 2) ≤ computeBackoffRat cfg n u
      ∧ computeBackoffRat cfg n u ≤ (rawDelay cfg n : ℚ) * (1 + cfg.jitterFactor / 2) := by
  rw [computeBackoffRat_jitter cfg hf n u]
  have hR : (0 : ℚ) ≤ (rawDelay cfg n : ℚ) := by
    exact_mod_cast rawDelay_nonneg cfg hb hbm n
  constructor
  · apply mul_le_mul_of_nonneg_left _ hR
    nlinarith
  · apply mul_le_mul_of_nonneg_left _ hR
    nlinarith

theorem computeBackoffRat_nonneg (cfg : Config) (hb : 0 ≤ cfg.baseDelay)
    (hbm : cfg.baseDelay ≤ cfg.maxDelay) (hf : 0 < cfg.jitterFactor)
    (hf1 : cfg.jitterFactor ≤ 1) (n : ℕ) (u : ℚ) (hu0 : 0 ≤ u) (hu1 : u < 1) :
    0 ≤ computeBackoffRat cfg n u := by
  have h := (computeBackoffRat_jitter_bounds cfg hb hbm hf n u hu0 hu1).1
  have hR : (0 : ℚ) ≤ (rawDelay cfg n : ℚ) := by
    exact_mod_cast rawDelay_nonneg cfg hb hbm n
  nlinarith

/-- C1: with jitter disabled and a valid configuration, `computeBackoff`
returns exactly `min(baseDelay * 2^n, maxDelay)` for every attempt count
`n` and every random draw; attempt count `0` yields exactly `baseDelay`;
the delay sequence is non-decreasing in the attempt count; and with
base = 100 and max = 1600 the first four attempt counts yield the delays
100, 200, 400, 800 in order. -/
theorem computeBackoff_nojitter_spec (cfg : Config) (hf : cfg.jitterFactor = 0)
    (hb : 0 ≤ cfg.baseDelay) (hbm : cfg.baseDelay ≤ cfg.maxDelay) :
    (∀ n u, computeBackoff cfg n u = min (cfg.baseDelay * 2 ^ n) cfg.maxDelay)
    ∧ (∀ u, computeBackoff cfg 0 u = cfg.baseDelay)
    ∧ (∀ n m u, n ≤ m → computeBackoff cfg n u ≤ computeBackoff cfg m u)
    ∧ (∀ u,
        (computeBackoff ⟨"wss://jetstream", 100, 1600, 0⟩ 0 u,
         computeBackoff ⟨"wss://jetstream", 100, 1600, 0⟩ 1 u,
         computeBackoff ⟨"wss://jetstream", 100, 1600, 0⟩ 2 u,
         computeBackoff ⟨"wss://jetstream", 100, 1600, 0⟩ 3 u)
          = (100, 200, 400, 800)) := by
  refine ⟨fun n u => computeBackoff_nojitter cfg hf n u, fun u => ?_, fun n m u h => ?_, fun u => ?_⟩
  · rw [computeBackoff_nojitter cfg hf 0 u]
    unfold rawDelay
    rw [pow_zero, mul_one, min_eq_left hbm]
  · rw [computeBackoff_nojitter cfg hf n u, computeBackoff_nojitter cfg hf m u]
    exact rawDelay_mono cfg hb h
  · rw [computeBackoff_nojitter _ rfl 0 u, computeBackoff_nojitter _ rfl 1 u,
      computeBackoff_nojitter _ rfl 2 u, computeBackoff_nojitter _ rfl 3 u]
    unfold rawDelay
    norm_num

theorem computeBackoff_nojitter_spec_witness :
    ((0 : ℤ) ≤ 100 ∧ (100 : ℤ) ≤ 1600)
    ∧ computeBackoff ⟨"wss://jetstream", 100, 1600, 0⟩ 3 (1/2)
        = min ((100 : ℤ) * 2 ^ 3) 1600 :=
  ⟨⟨by norm_num, by norm_num⟩,
    (computeBackoff_nojitter_spec ⟨"wss://jetstream", 100, 1600, 0⟩ rfl
      (by norm_num) (by norm_num)).1 3 (1/2)⟩

/-- C3 counterexample: at base = 101, max = 200, jitter fraction 1/10,
attempt count 0 and draw u = 1/1000 (all admissible), the pre-jitter value
is raw = 101, the pre-truncation value is 95.9601, and the returned delay
is 95, which is strictly below the claimed lower bound
raw * (1 - f/2) = 95.95 — the claim's interval fails for the returned
(integer-truncated) delay. -/
theorem computeBackoff_jitter_lower_bound_fails :
    ((0 : ℤ) ≤ 101 ∧ (101 : ℤ) ≤ 200 ∧ (0 : ℚ) < 1/10 ∧ (1/10 : ℚ) ≤ 1
      ∧ (0 : ℚ) ≤ 1/1000 ∧ (1/1000 : ℚ) < 1)
    ∧ rawDelay ⟨"wss://jetstream", 101, 200, 1/10⟩ 0 = 101
    ∧ computeBackoff ⟨"wss://jetstream", 101, 200, 1/10⟩ 0 (1/1000) = 95
    ∧ ¬ ((rawDelay ⟨"wss://jetstream", 101, 200, 1/10⟩ 0 : ℚ) * (1 - (1/10) / 2)
          ≤ (computeBackoff ⟨"wss://jetstream", 101, 200, 1/10⟩ 0 (1/1000) : ℚ)) := by
  have hraw : rawDelay ⟨"wss://jetstream", 101, 200, 1/10⟩ 0 = 101 := by
    norm_num [rawDelay]
  have hr : computeBackoffRat ⟨"wss://jetstream", 101, 200, 1/10⟩ 0 (1/1000)
      = 959601/10000 := by
    norm_num [computeBackoffRat]
  have hfl : (⌊(959601/10000 : ℚ)⌋ : ℤ) = 95 := by
    rw [Int.floor_eq_iff]
    norm_num
  have hcb : computeBackoff ⟨"wss://jetstream", 101, 200, 1/10⟩ 0 (1/1000) = 95 := by
    rw [computeBackoff, hr, durationOfRat_eq_floor _ (by norm_num), hfl]
  refine ⟨by norm_num, hraw, hcb, ?_⟩
  rw [hcb, hraw]
  norm_num

/-- The truncated (returned) delay obeys the shifted jitter bounds. -/
theorem computeBackoff_trunc_bounds (cfg : Config) (hb : 0 ≤ cfg.baseDelay)
    (hbm : cfg.baseDelay ≤ cfg.maxDelay) (hf : 0 < cfg.jitterFactor)
    (hf1 : cfg.jitterFactor ≤ 1) (n : ℕ) (u : ℚ) (hu0 : 0 ≤ u) (hu1 : u < 1) :
    (rawDelay cfg n : ℚ) * (1 - cfg.jitterFactor / 2) - 1
        < (computeBackoff cfg n u : ℚ)
    ∧ (computeBackoff cfg n u : ℚ)
        ≤ (rawDelay cfg n : ℚ) * (1 + cfg.jitterFactor / 2) := by
  have hbd := computeBackoffRat_jitter_bounds cfg hb hbm hf n u hu0 hu1
  have hnn := computeBackoffRat_nonneg cfg hb hbm hf hf1 n u hu0 hu1
  constructor
  · calc (rawDelay cfg n : ℚ) * (1 - cfg.jitterFactor / 2) - 1
        ≤ computeBackoffRat cfg n u - 1 := by linarith [hbd.1]
    _ < (computeBackoff cfg n u : ℚ) := durationOfRat_gt _ hnn
  · calc (computeBackoff cfg n u : ℚ)
        ≤ computeBackoffRat cfg n u := durationOfRat_le _ hnn
    _ ≤ (rawDelay cfg n : ℚ) * (1 + cfg.jitterFactor / 2) := hbd.2

/-- C3 (amended): for every valid configuration with jitter fraction
f ∈ (0, 1], every attempt count and every draw u ∈ [0, 1), the
pre-truncation backoff value lies within [raw*(1-f/2), raw*(1+f/2)], and
the returned delay (after Go's truncating float-to-Duration conversion)
lies within (raw*(1-f/2) - 1, raw*(1+f/2)], where
raw = min(baseDelay * 2^n, maxDelay). -/
theorem computeBackoff_jitter_bounds (cfg : Config) (hb : 0 ≤ cfg.baseDelay)
    (hbm : cfg.baseDelay ≤ cfg.maxDelay) (hf : 0 < cfg.jitterFactor)
    (hf1 : cfg.jitterFactor ≤ 1) (n : ℕ) (u : ℚ) (hu0 : 0 ≤ u) (hu1 : u < 1) :
    ((rawDelay cfg n : ℚ) * (1 - cfg.jitterFactor / 2) ≤ computeBackoffRat cfg n u
      ∧ computeBackoffRat cfg n u ≤ (rawDelay cfg n : ℚ) * (1 + cfg.jitterFactor / 2))
    ∧ ((rawDelay cfg n : ℚ) * (1 - cfg.jitterFactor / 2) - 1
          < (computeBackoff cfg n u : ℚ)
      ∧ (computeBackoff cfg n u : ℚ)
          ≤ (rawDelay cfg n : ℚ) * (1 + cfg.jitterFactor / 2)) :=
  ⟨computeBackoffRat_jitter_bounds cfg hb hbm hf n u hu0 hu1,
    computeBackoff_trunc_bounds cfg hb hbm hf hf1 n u hu0 hu1⟩

theorem computeBackoff_jitter_bounds_witness :
    ((0 : ℤ) ≤ (100 : ℤ) ∧ (100 : ℤ) ≤ 1600 ∧ (0 : ℚ) < 1/2 ∧ (1/2 : ℚ) ≤ 1
      ∧ (0 : ℚ) ≤ 3/4 ∧ (3/4 : ℚ) < 1)
    ∧ (((rawDelay ⟨"wss://jetstream", 100, 1600, 1/2⟩ 2 : ℚ) * (1 - (1/2) / 2)
          ≤ computeBackoffRat ⟨"wss://jetstream", 100, 1600, 1/2⟩ 2 (3/4)
        ∧ computeBackoffRat ⟨"wss://jetstream", 100, 1600, 1/2⟩ 2 (3/4)
          ≤ (rawDelay ⟨"wss://jetstream", 100, 1600, 1/2⟩ 2 : ℚ) * (1 + (1/2) / 2))
      ∧ ((rawDelay ⟨"wss://jetstream", 100, 1600, 1/2⟩ 2 : ℚ) * (1 - (1/2) / 2) - 1
            < (computeBackoff ⟨"wss://jetstream", 100, 1600, 1/2⟩ 2 (3/4) : ℚ)
        ∧ (computeBackoff ⟨"wss://jetstream", 100, 1600, 1/2⟩ 2 (3/4) : ℚ)
            ≤ (rawDelay ⟨"wss://jetstream", 100, 1600, 1/2⟩ 2 : ℚ) * (1 + (1/2) / 2))) :=
  ⟨⟨by norm_num, by norm_num, by norm_num, by norm_num, by norm_num, by norm_num⟩,
    computeBackoff_jitter_bounds ⟨"wss://jetstream", 100, 1600, 1/2⟩
      (by norm_num) (by norm_num) (by norm_num) (by norm_num) 2 (3/4)
      (by norm_num) (by norm_num)⟩

/-- C4 counterexample: with base = 100, max = 1600, jitter fraction 1 and
attempt count 10 (raw value capped at 1600), the draw u = 9/10 yields the
returned delay 2240 > 1600 = maxDelay: the returned delay is not clamped
to maxDelay when the jitter fraction is positive. -/
theorem computeBackoff_exceeds_max_with_jitter :
    ((0 : ℤ) ≤ 100 ∧ (100 : ℤ) ≤ 1600 ∧ (0 : ℚ) < 1 ∧ (1 : ℚ) ≤ 1
      ∧ (0 : ℚ) ≤ 9/10 ∧ (9/10 : ℚ) < 1)
    ∧ computeBackoff ⟨"wss://jetstream", 100, 1600, 1⟩ 10 (9/10) = 2240
    ∧ (⟨"wss://jetstream", 100, 1600, 1⟩ : Config).maxDelay
        < computeBackoff ⟨"wss://jetstream", 100, 1600, 1⟩ 10 (9/10) := by
  have hr : computeBackoffRat ⟨"wss://jetstream", 100, 1600, 1⟩ 10 (9/10)
      = ((2240 : ℤ) : ℚ) := by
    norm_num [computeBackoffRat]
  have hcb : computeBackoff ⟨"wss://jetstream", 100, 1600, 1⟩ 10 (9/10) = 2240 := by
    rw [computeBackoff, hr, durationOfRat_intCast]
  exact ⟨by norm_num, hcb, by rw [hcb]; norm_num⟩

/-- C4 (amended): the clamp to maxDelay applies to the pre-jitter value:
`rawDelay cfg n ≤ maxDelay` always; consequently for every draw
u ∈ [0, 1) the returned delay never exceeds `maxDelay * (1 + f/2)`, and
with jitter disabled it never exceeds `maxDelay` itself. -/
theorem computeBackoff_capped (cfg : Config) (hb : 0 ≤ cfg.baseDelay)
    (hbm : cfg.baseDelay ≤ cfg.maxDelay) (hf0 : 0 ≤ cfg.jitterFactor)
    (hf1 : cfg.jitterFactor ≤ 1) :
    (∀ n, rawDelay cfg n ≤ cfg.maxDelay)
    ∧ (∀ n u, 0 ≤ u → u < 1 → (computeBackoff cfg n u : ℚ)
        ≤ (cfg.maxDelay : ℚ) * (1 + cfg.jitterFactor / 2))
    ∧ (cfg.jitterFactor = 0 → ∀ n u, computeBackoff cfg n u ≤ cfg.maxDelay) := by
  have hraw : ∀ n, rawDelay cfg n ≤ cfg.maxDelay := fun n => min_le_right _ _
  have hmax : (0 : ℚ) ≤ (cfg.maxDelay : ℚ) := by
    have := le_trans hb hbm
    exact_mod_cast this
  refine ⟨hraw, fun n u hu0 hu1 => ?_, fun hfz n u => ?_⟩
  · rcases eq_or_lt_of_le hf0 with hfz | hfp
    · rw [computeBackoff_nojitter cfg hfz.symm n u, ← hfz]
      have h1 : ((rawDelay cfg n : ℤ) : ℚ) ≤ (cfg.maxDelay : ℚ) := by
        exact_mod_cast hraw n
      calc ((rawDelay cfg n : ℤ) : ℚ) ≤ (cfg.maxDelay : ℚ) := h1
      _ ≤ (cfg.maxDelay : ℚ) * (1 + 0 / 2) := by norm_num
    · have h := (computeBackoff_trunc_bounds cfg hb hbm hfp hf1 n u hu0 hu1).2
      calc (computeBackoff cfg n u : ℚ)
          ≤ (rawDelay cfg n : ℚ) * (1 + cfg.jitterFactor / 2) := h
      _ ≤ (cfg.maxDelay : ℚ) * (1 + cfg.jitterFactor / 2) := by
          apply mul_le_mul_of_nonneg_right _ (by nlinarith)
          exact_mod_cast hraw n
  · rw [computeBackoff_nojitter cfg hfz n u]
    exact hraw n

theorem computeBackoff_capped_witness :
    ((0 : ℤ) ≤ 100 ∧ (100 : ℤ) ≤ 1600 ∧ (0 : ℚ) ≤ 1 ∧ (1 : ℚ) ≤ 1)
    ∧ rawDelay ⟨"wss://jetstream", 100, 1600, 1⟩ 10 ≤ 1600 :=
  ⟨⟨by norm_num, by norm_num, by norm_num, by norm_num⟩,
    (computeBackoff_capped ⟨"wss://jetstream", 100, 1600, 1⟩
      (by norm_num) (by norm_num) (by norm_num) (by norm_num)).1 10⟩

/-! ## The client state machine -/

/-- The mutable fields of the Go `Client` struct: the mutex-guarded
connection handle (`conn`, a `*websocket.Conn`, modelled as an optional
handle id), the `isConnected` flag, and `reconnectCount`.  The zero value
(`conn = nil`, `isConnected = false`, `reconnectCount = 0`) is the state
`NewClient` returns. -/
structure ClientState where
  conn : Option ℕ
  isConnected : Bool
  reconnectCount : ℕ
deriving DecidableEq, Repr

/-- A message handler (`MessageHandler` in Go): receives the message type
and payload, returns an error (`some e`) to signal the client should
disconnect, or `none` for success. -/
def MessageHandler : Type := ℤ → List ℕ → Option ℕ

/-- The immutable fields of the Go `Client` struct: the configuration and
the (possibly nil) message handler.  The logger is not modelled. -/
structure Client where
  config : Config
  handler : Option MessageHandler

/-- Modelled from the spec: `Config.Validate` is not part of the sources
under `src/` (only its call site in `NewClient` is).  Per spec §3, a
configuration is valid iff base delay ≤ max delay and the jitter fraction
lies in [0, 1]; construction fails if invalid. -/
def Config.validate (cfg : Config) : Bool :=
  decide (cfg.baseDelay ≤ cfg.maxDelay ∧ 0 ≤ cfg.jitterFactor ∧ cfg.jitterFactor ≤ 1)

/-- `NewClient` from the Go source: validates the configuration and, on
success, returns a client holding the given handler (which may be nil);
the logger defaulting is not modelled. -/
def NewClient (cfg : Config) (handler : Option MessageHandler) : Option Client :=
  if cfg.validate then some ⟨cfg, handler⟩ else none

/-- `connect` from the Go source, given the dial's outcome `d`
(`some e` = dial error, `none` = success with fresh handle `i`): on
failure it returns the error unchanged and leaves the state untouched; on
success it installs the handle and sets `isConnected := true` in one
critical section, returning no error. -/
def connect (st : ClientState) (d : Option ℕ) (i : ℕ) : ClientState × Option ℕ :=
  match d with
  | some e => (st, some e)
  | none => ({ st with conn := some i, isConnected := true }, none)

/-- `close` from the Go source: under the lock, close and clear the handle
if present (the transport close error is swallowed) and set
`isConnected := false`. -/
def close (st : ClientState) : ClientState :=
  { st with conn := none, isConnected := false }

/-- `IsConnected` from the Go source: a point-in-time snapshot of the
`isConnected` flag taken under the lock. -/
def IsConnected (st : ClientState) : Bool :=
  st.isConnected

/-- The outcome of one `conn.ReadMessage()` call: a message (type and
payload) or a transport read error. -/
inductive ReadResult where
  | msg (messageType : ℤ) (payload : List ℕ)
  | err (e : ℕ)

/-- The environment a run interacts with: the outcome of the `i`-th dial
attempt (`some e` = failure), the outcome of the `i`-th `ReadMessage`
call, the `i`-th `rand.Float64()` draw (consumed by `computeBackoff` at
the `i`-th dial attempt), and the context's cancellation reason
(`ctx.Err()`). -/
structure Env where
  dial : ℕ → Option ℕ
  read : ℕ → ReadResult
  jitter : ℕ → ℚ
  ctxErr : ℕ

/-- Observable events of a run, in chronological order.  `dialFail a d`
records a failed dial attempt whose backoff delay `d` was computed with
attempt count `a`; `wait d` records a completed backoff wait; `recvMsg` a
message read and dispatched (or discarded) without error; `readErr` /
`handlerErr` the two ways the read loop ends a connection;
`cancelObserved` the observation of context cancellation that makes `Run`
return. -/
inductive Event where
  | dialFail (attempt : ℕ) (delay : ℤ)
  | dialOk
  | wait (delay : ℤ)
  | recvMsg
  | readErr (e : ℕ)
  | handlerErr (e : ℕ)
  | cancelObserved
deriving DecidableEq, Repr

/-- Result of a `readLoop` call: the client state when it returns, the
remaining cancellation budget, the next read cursor, and the events it
produced. -/
structure LoopResult where
  st : ClientState
  ctx : ℕ
  readIdx : ℕ
  trace : List Event

/-- `readLoop` from the Go source.  The cancellation budget `ctx` is the
number of cancellation checks that still observe "not cancelled"; each
loop iteration starts with such a check.  At budget 0 the loop observes
cancellation and returns without touching the connection (Run's own check
then cleans up).  Otherwise it reads the next message: on a transport
error it closes the connection and returns; on a message it invokes the
handler if one is set — a handler error closes the connection and
returns, otherwise the loop continues. -/
def readLoop (cl : Client) (env : Env) : ClientState → ℕ → ℕ → LoopResult
  | st, 0, ri => ⟨st, 0, ri, []⟩
  | st, n + 1, ri =>
    match env.read ri with
    | .err e => ⟨close st, n, ri + 1, [.readErr e]⟩
    | .msg t p =>
      match cl.handler with
      | none =>
        let r := readLoop cl env st n (ri + 1)
        ⟨r.st, r.ctx, r.readIdx, .recvMsg :: r.trace⟩
      | some h =>
        match h t p with
        | some e => ⟨close st, n, ri + 1, [.handlerErr e]⟩
        | none =>
          let r := readLoop cl env st n (ri + 1)
          ⟨r.st, r.ctx, r.readIdx, .recvMsg :: r.trace⟩

/-- Control position inside `Run`: `driving` is the top of the outer
reconnect loop; `reading` is the top of the read loop (used to express
`Run` with the `readLoop` call inlined, so that the whole run is driven
by the single cancellation budget). -/
inductive Mode where
  | driving
  | reading

/-- Result of `Run`: the final client state, the returned error, and the
chronological event trace. -/
structure RunResult where
  st : ClientState
  ret : ℕ
  trace : List Event

/-- `Run` from the Go source (with `readLoop` inlined as the `reading`
mode).  Arguments: mode, client state, cancellation budget, dial cursor,
read cursor.  Every loop iteration of either loop first checks
cancellation: at budget 0 the check observes cancellation, `Run` closes
any open connection and returns `ctx.Err()`.  In `driving` mode a dial is
attempted via `connect`: on failure the backoff delay is computed from
the pre-increment `reconnectCount`, the counter is incremented, and the
client waits — if cancellation arrives during the wait (next budget 0),
`Run` returns `ctx.Err()` immediately; otherwise it loops.  On success
the counter resets to 0 and control enters the read loop. -/
def exec (cl : Client) (env : Env) : Mode → ClientState → ℕ → ℕ → ℕ → RunResult
  | _, st, 0, _, _ => ⟨close st, env.ctxErr, [.cancelObserved]⟩
  | .driving, st, 1, di, ri =>
    match connect st (env.dial di) di with
    | (st1, some _) =>
      let a := st1.reconnectCount
      let delay := computeBackoff cl.config a (env.jitter di)
      ⟨{ st1 with reconnectCount := a + 1 }, env.ctxErr,
        [.dialFail a delay, .cancelObserved]⟩
    | (st1, none) =>
      let r := exec cl env .reading { st1 with reconnectCount := 0 } 0 (di + 1) ri
      ⟨r.st, r.ret, .dialOk :: r.trace⟩
  | .driving, st, n + 2, di, ri =>
    match connect st (env.dial di) di with
    | (st1, some _) =>
      let a := st1.reconnectCount
      let delay := computeBackoff cl.config a (env.jitter di)
      let r := exec cl env .driving { st1 with reconnectCount := a + 1 } (n + 1) (di + 1) ri
      ⟨r.st, r.ret, .dialFail a delay :: .wait delay :: r.trace⟩
    | (st1, none) =>
      let r := exec cl env .reading { st1 with reconnectCount := 0 } (n + 1) (di + 1) ri
      ⟨r.st, r.ret, .dialOk :: r.trace⟩
  | .reading, st, n + 1, di, ri =>
    match env.read ri with
    | .err e =>
      let r := exec cl env .driving (close st) n di (ri + 1)
      ⟨r.st, r.ret, .readErr e :: r.trace⟩
    | .msg t p =>
      match cl.handler with
      | none =>
        let r := exec cl env .reading st n di (ri + 1)
        ⟨r.st, r.ret, .recvMsg :: r.trace⟩
      | some h =>
        match h t p with
        | some e =>
          let r := exec cl env .driving (close st) n di (ri + 1)
          ⟨r.st, r.ret, .handlerErr e :: r.trace⟩
        | none =>
          let r := exec cl env .reading st n di (ri + 1)
          ⟨r.st, r.ret, .recvMsg :: r.trace⟩

/-- The entry point `Run(ctx)` on a freshly constructed client. -/
def run (cl : Client) (env : Env) (ctx : ℕ) : RunResult :=
  exec cl env .driving ⟨none, false, 0⟩ ctx 0 0

/-! ## One-step unfolding lemmas for `exec` -/

theorem exec_zero (cl : Client) (env : Env) (mode : Mode) (st : ClientState) (di ri : ℕ) :
    exec cl env mode st 0 di ri = ⟨close st, env.ctxErr, [.cancelObserved]⟩ := by
  cases mode <;> rfl

theorem exec_driving_one (cl : Client) (env : Env) (st : ClientState) (di ri : ℕ) :
    exec cl env .driving st 1 di ri =
      match connect st (env.dial di) di with
      | (st1, some _) =>
        ⟨{ st1 with reconnectCount := st1.reconnectCount + 1 }, env.ctxErr,
          [.dialFail st1.reconnectCount
            (computeBackoff cl.config st1.reconnectCount (env.jitter di)),
           .cancelObserved]⟩
      | (st1, none) =>
        let r := exec cl env .reading { st1 with reconnectCount := 0 } 0 (di + 1) ri
        ⟨r.st, r.ret, .dialOk :: r.trace⟩ := rfl

theorem exec_driving_succ (cl : Client) (env : Env) (st : ClientState) (n di ri : ℕ) :
    exec cl env .driving st (n + 2) di ri =
      match connect st (env.dial di) di with
      | (st1, some _) =>
        let r := exec cl env .driving
          { st1 with reconnectCount := st1.reconnectCount + 1 } (n + 1) (di + 1) ri
        ⟨r.st, r.ret,
          .dialFail st1.reconnectCount
            (computeBackoff cl.config st1.reconnectCount (env.jitter di))
          :: .wait (computeBackoff cl.config st1.reconnectCount (env.jitter di))
          :: r.trace⟩
      | (st1, none) =>
        let r := exec cl env .reading { st1 with reconnectCount := 0 } (n + 1) (di + 1) ri
        ⟨r.st, r.ret, .dialOk :: r.trace⟩ := rfl

theorem exec_reading_succ (cl : Client) (env : Env) (st : ClientState) (n di ri : ℕ) :
    exec cl env .reading st (n + 1) di ri =
      match env.read ri with
      | .err e =>
        let r := exec cl env .driving (close st) n di (ri + 1)
        ⟨r.st, r.ret, .readErr e :: r.trace⟩
      | .msg t p =>
        match cl.handler with
        | none =>
          let r := exec cl env .reading st n di (ri + 1)
          ⟨r.st, r.ret, .recvMsg :: r.trace⟩
        | some h =>
          match h t p with
          | some e =>
            let r := exec cl env .driving (close st) n di (ri + 1)
            ⟨r.st, r.ret, .handlerErr e :: r.trace⟩
          | none =>
            let r := exec cl env .reading st n di (ri + 1)
            ⟨r.st, r.ret, .recvMsg :: r.trace⟩ := rfl

theorem exec_driving_fail_one (cl : Client) (env : Env) (st : ClientState) (di ri e : ℕ)
    (hd : env.dial di = some e) :
    exec cl env .driving st 1 di ri =
      ⟨{ st with reconnectCount := st.reconnectCount + 1 }, env.ctxErr,
        [.dialFail st.reconnectCount
          (computeBackoff cl.config st.reconnectCount (env.jitter di)),
         .cancelObserved]⟩ := by
  simp [exec, connect, hd]

theorem exec_driving_fail_succ (cl : Client) (env : Env) (st : ClientState) (n di ri e : ℕ)
    (hd : env.dial di = some e) :
    exec cl env .driving st (n + 2) di ri =
      ⟨(exec cl env .driving { st with reconnectCount := st.reconnectCount + 1 }
          (n + 1) (di + 1) ri).st,
       (exec cl env .driving { st with reconnectCount := st.reconnectCount + 1 }
          (n + 1) (di + 1) ri).ret,
       .dialFail st.reconnectCount
          (computeBackoff cl.config st.reconnectCount (env.jitter di))
        :: .wait (computeBackoff cl.config st.reconnectCount (env.jitter di))
        :: (exec cl env .driving { st with reconnectCount := st.reconnectCount + 1 }
          (n + 1) (di + 1) ri).trace⟩ := by
  simp [exec, connect, hd]

theorem exec_driving_ok (cl : Client) (env : Env) (st : ClientState) (n di ri : ℕ)
    (hd : env.dial di = none) :
    exec cl env .driving st (n + 1) di ri =
      ⟨(exec cl env .reading ⟨some di, true, 0⟩ n (di + 1) ri).st,
       (exec cl env .reading ⟨some di, true, 0⟩ n (di + 1) ri).ret,
       .dialOk :: (exec cl env .reading ⟨some di, true, 0⟩ n (di + 1) ri).trace⟩ := by
  cases n with
  | zero => simp [exec, connect, hd]
  | succ m => simp [exec, connect, hd]

theorem exec_reading_err (cl : Client) (env : Env) (st : ClientState) (n di ri e : ℕ)
    (hr : env.read ri = .err e) :
    exec cl env .reading st (n + 1) di ri =
      ⟨(exec cl env .driving (close st) n di (ri + 1)).st,
       (exec cl env .driving (close st) n di (ri + 1)).ret,
       .readErr e :: (exec cl env .driving (close st) n di (ri + 1)).trace⟩ := by
  simp [exec, hr]

theorem exec_reading_msg_nil (cl : Client) (env : Env) (st : ClientState) (n di ri : ℕ)
    (t : ℤ) (p : List ℕ) (hr : env.read ri = .msg t p) (hh : cl.handler = none) :
    exec cl env .reading st (n + 1) di ri =
      ⟨(exec cl env .reading st n di (ri + 1)).st,
       (exec cl env .reading st n di (ri + 1)).ret,
       .recvMsg :: (exec cl env .reading st n di (ri + 1)).trace⟩ := by
  simp [exec, hr, hh]

theorem exec_reading_msg_ok (cl : Client) (env : Env) (st : ClientState) (n di ri : ℕ)
    (t : ℤ) (p : List ℕ) (h : MessageHandler) (hr : env.read ri = .msg t p)
    (hh : cl.handler = some h) (hhe : h t p = none) :
    exec cl env .reading st (n + 1) di ri =
      ⟨(exec cl env .reading st n di (ri + 1)).st,
       (exec cl env .reading st n di (ri + 1)).ret,
       .recvMsg :: (exec cl env .reading st n di (ri + 1)).trace⟩ := by
  simp [exec, hr, hh, hhe]

theorem exec_reading_msg_err (cl : Client) (env : Env) (st : ClientState) (n di ri : ℕ)
    (t : ℤ) (p : List ℕ) (h : MessageHandler) (e : ℕ) (hr : env.read ri = .msg t p)
    (hh : cl.handler = some h) (hhe : h t p = some e) :
    exec cl env .reading st (n + 1) di ri =
      ⟨(exec cl env .driving (close st) n di (ri + 1)).st,
       (exec cl env .driving (close st) n di (ri + 1)).ret,
       .handlerErr e :: (exec cl env .driving (close st) n di (ri + 1)).trace⟩ := by
  simp [exec, hr, hh, hhe]

/-! ## Trace predicates -/

def isWait : Event → Bool
  | .wait _ => true
  | _ => false

def isDialFail : Event → Bool
  | .dialFail _ _ => true
  | _ => false

/-- The two events with which the read loop can end a live connection. -/
def isReadEnd : Event → Bool
  | .readErr _ => true
  | .handlerErr _ => true
  | _ => false

/-- Events that may legitimately come right after the read loop ends: a
new dial attempt (failed or successful) or the observation of
cancellation — anything but a backoff wait or further reads. -/
def redialOrStop : Event → Bool
  | .dialFail _ _ => true
  | .dialOk => true
  | .cancelObserved => true
  | _ => false

/-- Adjacent-pair condition: a backoff wait may only immediately follow a
failed dial attempt. -/
def waitPred (a b : Event) : Bool := !isWait b || isDialFail a

/-- Adjacent-pair condition: when the read loop ends a connection, the
very next event is a dial attempt or the cancellation observation —
never a wait, never another read. -/
def redialPred (a b : Event) : Bool := !isReadEnd a || redialOrStop b

/-- `adjOk p t` checks `p` on every adjacent pair of `t`. -/
def adjOk (p : Event → Event → Bool) : List Event → Bool
  | a :: b :: rest => p a b && adjOk p (b :: rest)
  | _ => true

/-- `attemptsFrom k t`: starting from a current `reconnectCount` of `k`,
every `dialFail` event records exactly the current count as its attempt,
a failed dial increments the count, a successful dial resets it to 0, and
no other event changes it. -/
def attemptsFrom : ℕ → List Event → Bool
  | _, [] => true
  | k, .dialFail a _ :: rest => a == k && attemptsFrom (k + 1) rest
  | _, .dialOk :: rest => attemptsFrom 0 rest
  | k, _ :: rest => attemptsFrom k rest

/-- The state is fully disconnected: no handle, flag down. -/
def disconnected (st : ClientState) : Prop :=
  st.conn = none ∧ st.isConnected = false

/-- The flag/handle pair is consistent (never torn). -/
def stOk (st : ClientState) : Prop :=
  st.isConnected = st.conn.isSome

/-! ## Read-loop lemmas -/

theorem readLoop_reconnectCount (cl : Client) (env : Env) :
    ∀ (n : ℕ) (st : ClientState) (ri : ℕ),
      (readLoop cl env st n ri).st.reconnectCount = st.reconnectCount := by
  intro n
  induction n with
  | zero => intro st ri; simp [readLoop]
  | succ n ih =>
    intro st ri
    cases hr : env.read ri with
    | err e => simp [readLoop, hr, close]
    | msg t p =>
      cases hh : cl.handler with
      | none => simp [readLoop, hr, hh, ih]
      | some h =>
        cases hhe : h t p with
        | none => simp [readLoop, hr, hh, hhe, ih]
        | some e => simp [readLoop, hr, hh, hhe, close]

theorem readLoop_stOk (cl : Client) (env : Env) :
    ∀ (n : ℕ) (st : ClientState) (ri : ℕ), stOk st →
      stOk (readLoop cl env st n ri).st := by
  intro n
  induction n with
  | zero => intro st ri h; simpa [readLoop] using h
  | succ n ih =>
    intro st ri h
    cases hr : env.read ri with
    | err e => simp [readLoop, hr, close, stOk]
    | msg t p =>
      cases hh : cl.handler with
      | none => simpa [readLoop, hr, hh] using ih st (ri + 1) h
      | some hd =>
        cases hhe : hd t p with
        | none => simpa [readLoop, hr, hh, hhe] using ih st (ri + 1) h
        | some e => simp [readLoop, hr, hh, hhe, close, stOk]

/-! ## Run lemmas -/

theorem exec_ret (cl : Client) (env : Env) :
    ∀ (n : ℕ) (mode : Mode) (st : ClientState) (di ri : ℕ),
      (exec cl env mode st n di ri).ret = env.ctxErr := by
  intro n
  induction n with
  | zero => intro mode st di ri; rw [exec_zero]
  | succ n ih =>
    intro mode st di ri
    cases mode with
    | driving =>
      cases hd : env.dial di with
      | none =>
        rw [exec_driving_ok cl env st n di ri hd]
        exact ih .reading ⟨some di, true, 0⟩ (di + 1) ri
      | some e =>
        cases n with
        | zero => rw [exec_driving_fail_one cl env st di ri e hd]
        | succ m =>
          rw [exec_driving_fail_succ cl env st m di ri e hd]
          exact ih .driving { st with reconnectCount := st.reconnectCount + 1 } (di + 1) ri
    | reading =>
      cases hr : env.read ri with
      | err e =>
        rw [exec_reading_err cl env st n di ri e hr]
        exact ih .driving (close st) di (ri + 1)
      | msg t p =>
        cases hh : cl.handler with
        | none =>
          rw [exec_reading_msg_nil cl env st n di ri t p hr hh]
          exact ih .reading st di (ri + 1)
        | some h =>
          cases hhe : h t p with
          | none =>
            rw [exec_reading_msg_ok cl env st n di ri t p h hr hh hhe]
            exact ih .reading st di (ri + 1)
          | some e =>
            rw [exec_reading_msg_err cl env st n di ri t p h e hr hh hhe]
            exact ih .driving (close st) di (ri + 1)

theorem exec_trace_end (cl : Client) (env : Env) :
    ∀ (n : ℕ) (mode : Mode) (st : ClientState) (di ri : ℕ),
      ∃ pre, (exec cl env mode st n di ri).trace = pre ++ [Event.cancelObserved] := by
  intro n
  induction n with
  | zero => intro mode st di ri; exact ⟨[], by simp [exec_zero]⟩
  | succ n ih =>
    intro mode st di ri
    cases mode with
    | driving =>
      cases hd : env.dial di with
      | none =>
        obtain ⟨pre, hp⟩ := ih .reading ⟨some di, true, 0⟩ (di + 1) ri
        exact ⟨.dialOk :: pre, by rw [exec_driving_ok cl env st n di ri hd]; simp [hp]⟩
      | some e =>
        cases n with
        | zero =>
          exact ⟨[.dialFail st.reconnectCount
            (computeBackoff cl.config st.reconnectCount (env.jitter di))],
            by rw [exec_driving_fail_one cl env st di ri e hd]; rfl⟩
        | succ m =>
          obtain ⟨pre, hp⟩ := ih .driving
            { st with reconnectCount := st.reconnectCount + 1 } (di + 1) ri
          refine ⟨.dialFail st.reconnectCount
            (computeBackoff cl.config st.reconnectCount (env.jitter di))
              :: .wait (computeBackoff cl.config st.reconnectCount (env.jitter di)) :: pre, ?_⟩
          rw [exec_driving_fail_succ cl env st m di ri e hd]
          simp [hp]
    | reading =>
      cases hr : env.read ri with
      | err e =>
        obtain ⟨pre, hp⟩ := ih .driving (close st) di (ri + 1)
        exact ⟨.readErr e :: pre,
          by rw [exec_reading_err cl env st n di ri e hr]; simp [hp]⟩
      | msg t p =>
        cases hh : cl.handler with
        | none =>
          obtain ⟨pre, hp⟩ := ih .reading st di (ri + 1)
          exact ⟨.recvMsg :: pre,
            by rw [exec_reading_msg_nil cl env st n di ri t p hr hh]; simp [hp]⟩
        | some h =>
          cases hhe : h t p with
          | none =>
            obtain ⟨pre, hp⟩ := ih .reading st di (ri + 1)
            exact ⟨.recvMsg :: pre,
              by rw [exec_reading_msg_ok cl env st n di ri t p h hr hh hhe]; simp [hp]⟩
          | some e =>
            obtain ⟨pre, hp⟩ := ih .driving (close st) di (ri + 1)
            exact ⟨.handlerErr e :: pre,
              by rw [exec_reading_msg_err cl env st n di ri t p h e hr hh hhe]; simp [hp]⟩

theorem disconnected_close (st : ClientState) : disconnected (close st) := ⟨rfl, rfl⟩

/-- The final state of a run is fully disconnected: in `reading` mode
unconditionally, in `driving` mode provided the loop was entered
disconnected (which is the only way `Run` enters it). -/
theorem exec_disc (cl : Client) (env : Env) :
    ∀ (n : ℕ),
      (∀ (st : ClientState) (di ri : ℕ),
        disconnected (exec cl env .reading st n di ri).st)
      ∧ (∀ (st : ClientState) (di ri : ℕ), disconnected st →
        disconnected (exec cl env .driving st n di ri).st) := by
  intro n
  induction n with
  | zero =>
    constructor
    · intro st di ri
      rw [exec_zero]
      exact disconnected_close st
    · intro st di ri _
      rw [exec_zero]
      exact disconnected_close st
  | succ n ih =>
    constructor
    · intro st di ri
      cases hr : env.read ri with
      | err e =>
        rw [exec_reading_err cl env st n di ri e hr]
        exact ih.2 (close st) di (ri + 1) (disconnected_close st)
      | msg t p =>
        cases hh : cl.handler with
        | none =>
          rw [exec_reading_msg_nil cl env st n di ri t p hr hh]
          exact ih.1 st di (ri + 1)
        | some h =>
          cases hhe : h t p with
          | none =>
            rw [exec_reading_msg_ok cl env st n di ri t p h hr hh hhe]
            exact ih.1 st di (ri + 1)
          | some e =>
            rw [exec_reading_msg_err cl env st n di ri t p h e hr hh hhe]
            exact ih.2 (close st) di (ri + 1) (disconnected_close st)
    · intro st di ri hdisc
      cases hd : env.dial di with
      | none =>
        rw [exec_driving_ok cl env st n di ri hd]
        exact ih.1 ⟨some di, true, 0⟩ (di + 1) ri
      | some e =>
        cases n with
        | zero =>
          rw [exec_driving_fail_one cl env st di ri e hd]
          exact ⟨hdisc.1, hdisc.2⟩
        | succ m =>
          rw [exec_driving_fail_succ cl env st m di ri e hd]
          exact ih.2 { st with reconnectCount := st.reconnectCount + 1 } (di + 1) ri
            ⟨hdisc.1, hdisc.2⟩

theorem stOk_close (st : ClientState) : stOk (close st) := rfl

/-- Every operation of the run preserves consistency of the
(flag, handle) pair. -/
theorem exec_stOk (cl : Client) (env : Env) :
    ∀ (n : ℕ) (mode : Mode) (st : ClientState) (di ri : ℕ), stOk st →
      stOk (exec cl env mode st n di ri).st := by
  intro n
  induction n with
  | zero =>
    intro mode st di ri _
    rw [exec_zero]
    exact stOk_close st
  | succ n ih =>
    intro mode st di ri h
    cases mode with
    | driving =>
      cases hd : env.dial di with
      | none =>
        rw [exec_driving_ok cl env st n di ri hd]
        exact ih .reading ⟨some di, true, 0⟩ (di + 1) ri rfl
      | some e =>
        cases n with
        | zero =>
          rw [exec_driving_fail_one cl env st di ri e hd]
          exact h
        | succ m =>
          rw [exec_driving_fail_succ cl env st m di ri e hd]
          exact ih .driving { st with reconnectCount := st.reconnectCount + 1 } (di + 1) ri h
    | reading =>
      cases hr : env.read ri with
      | err e =>
        rw [exec_reading_err cl env st n di ri e hr]
        exact ih .driving (close st) di (ri + 1) (stOk_close st)
      | msg t p =>
        cases hh : cl.handler with
        | none =>
          rw [exec_reading_msg_nil cl env st n di ri t p hr hh]
          exact ih .reading st di (ri + 1) h
        | some hdl =>
          cases hhe : hdl t p with
          | none =>
            rw [exec_reading_msg_ok cl env st n di ri t p hdl hr hh hhe]
            exact ih .reading st di (ri + 1) h
          | some e =>
            rw [exec_reading_msg_err cl env st n di ri t p hdl e hr hh hhe]
            exact ih .driving (close st) di (ri + 1) (stOk_close st)

theorem adjOk_cons (p : Event → Event → Bool) (a : Event) (t : List Event)
    (h1 : adjOk p t = true) (h2 : ∀ b, t.head? = some b → p a b = true) :
    adjOk p (a :: t) = true := by
  cases t with
  | nil => rfl
  | cons b rest =>
    have hpab := h2 b rfl
    simp [adjOk, hpab, h1]

theorem isWait_false_of_redialOrStop (e : Event) (h : redialOrStop e = true) :
    isWait e = false := by
  cases e <;> simp_all [isWait, redialOrStop]

/-- The first event of a run started in `driving` mode is a dial attempt
or the cancellation observation (in particular, never a wait). -/
theorem exec_head_driving (cl : Client) (env : Env) (n : ℕ) (st : ClientState)
    (di ri : ℕ) :
    ∃ e, (exec cl env .driving st n di ri).trace.head? = some e
      ∧ redialOrStop e = true := by
  cases n with
  | zero => exact ⟨.cancelObserved, by rw [exec_zero]; rfl, rfl⟩
  | succ n =>
    cases hd : env.dial di with
    | none =>
      exact ⟨.dialOk, by rw [exec_driving_ok cl env st n di ri hd]; rfl, rfl⟩
    | some e =>
      cases n with
      | zero =>
        exact ⟨.dialFail st.reconnectCount
          (computeBackoff cl.config st.reconnectCount (env.jitter di)),
          by rw [exec_driving_fail_one cl env st di ri e hd]; rfl, rfl⟩
      | succ m =>
        exact ⟨.dialFail st.reconnectCount
          (computeBackoff cl.config st.reconnectCount (env.jitter di)),
          by rw [exec_driving_fail_succ cl env st m di ri e hd]; rfl, rfl⟩

/-- The first event of a run started in `reading` mode is a read outcome
or the cancellation observation (never a wait). -/
theorem exec_head_reading (cl : Client) (env : Env) (n : ℕ) (st : ClientState)
    (di ri : ℕ) :
    ∃ e, (exec cl env .reading st n di ri).trace.head? = some e
      ∧ isWait e = false := by
  cases n with
  | zero => exact ⟨.cancelObserved, by rw [exec_zero]; rfl, rfl⟩
  | succ n =>
    cases hr : env.read ri with
    | err e =>
      exact ⟨.readErr e, by rw [exec_reading_err cl env st n di ri e hr]; rfl, rfl⟩
    | msg t p =>
      cases hh : cl.handler with
      | none =>
        exact ⟨.recvMsg, by rw [exec_reading_msg_nil cl env st n di ri t p hr hh]; rfl, rfl⟩
      | some h =>
        cases hhe : h t p with
        | none =>
          exact ⟨.recvMsg,
            by rw [exec_reading_msg_ok cl env st n di ri t p h hr hh hhe]; rfl, rfl⟩
        | some e =>
          exact ⟨.handlerErr e,
            by rw [exec_reading_msg_err cl env st n di ri t p h e hr hh hhe]; rfl, rfl⟩

/-- Both adjacency disciplines hold of every run trace: a wait only ever
immediately follows a failed dial, and a read-loop-ending event is
immediately followed by a dial attempt or the cancellation observation. -/
theorem exec_adj (cl : Client) (env : Env) :
    ∀ (n : ℕ) (mode : Mode) (st : ClientState) (di ri : ℕ),
      adjOk waitPred (exec cl env mode st n di ri).trace = true
      ∧ adjOk redialPred (exec cl env mode st n di ri).trace = true := by
  intro n
  induction n with
  | zero =>
    intro mode st di ri
    rw [exec_zero]
    exact ⟨rfl, rfl⟩
  | succ n ih =>
    intro mode st di ri
    cases mode with
    | driving =>
      cases hd : env.dial di with
      | none =>
        rw [exec_driving_ok cl env st n di ri hd]
        have hT := ih .reading ⟨some di, true, 0⟩ (di + 1) ri
        obtain ⟨eh, hh1, hh2⟩ := exec_head_reading cl env n ⟨some di, true, 0⟩ (di + 1) ri
        constructor
        · apply adjOk_cons _ _ _ hT.1
          intro b hb
          rw [hh1] at hb
          cases hb
          simp [waitPred, hh2]
        · apply adjOk_cons _ _ _ hT.2
          intro b _
          rfl
      | some e =>
        cases n with
        | zero =>
          rw [exec_driving_fail_one cl env st di ri e hd]
          exact ⟨rfl, rfl⟩
        | succ m =>
          rw [exec_driving_fail_succ cl env st m di ri e hd]
          have hT := ih .driving { st with reconnectCount := st.reconnectCount + 1 } (di + 1) ri
          obtain ⟨eh, hh1, hh2⟩ := exec_head_driving cl env (m + 1)
            { st with reconnectCount := st.reconnectCount + 1 } (di + 1) ri
          constructor
          · apply adjOk_cons
            · apply adjOk_cons _ _ _ hT.1
              intro b hb
              rw [hh1] at hb
              cases hb
              simp [waitPred, isWait_false_of_redialOrStop eh hh2]
            · intro b hb
              cases hb
              rfl
          · apply adjOk_cons
            · apply adjOk_cons _ _ _ hT.2
              intro b hb
              rw [hh1] at hb
              cases hb
              simp [redialPred, hh2]
            · intro b hb
              cases hb
              rfl
    | reading =>
      cases hr : env.read ri with
      | err e =>
        rw [exec_reading_err cl env st n di ri e hr]
        have hT := ih .driving (close st) di (ri + 1)
        obtain ⟨eh, hh1, hh2⟩ := exec_head_driving cl env n (close st) di (ri + 1)
        constructor
        · apply adjOk_cons _ _ _ hT.1
          intro b hb
          rw [hh1] at hb
          cases hb
          simp [waitPred, isWait_false_of_redialOrStop eh hh2]
        · apply adjOk_cons _ _ _ hT.2
          intro b hb
          rw [hh1] at hb
          cases hb
          simp [redialPred, hh2]
      | msg t p =>
        cases hh : cl.handler with
        | none =>
          rw [exec_reading_msg_nil cl env st n di ri t p hr hh]
          have hT := ih .reading st di (ri + 1)
          obtain ⟨eh, hh1, hh2⟩ := exec_head_reading cl env n st di (ri + 1)
          constructor
          · apply adjOk_cons _ _ _ hT.1
            intro b hb
            rw [hh1] at hb
            cases hb
            simp [waitPred, hh2]
          · apply adjOk_cons _ _ _ hT.2
            intro b _
            rfl
        | some h =>
          cases hhe : h t p with
          | none =>
            rw [exec_reading_msg_ok cl env st n di ri t p h hr hh hhe]
            have hT := ih .reading st di (ri + 1)
            obtain ⟨eh, hh1, hh2⟩ := exec_head_reading cl env n st di (ri + 1)
            constructor
            · apply adjOk_cons _ _ _ hT.1
              intro b hb
              rw [hh1] at hb
              cases hb
              simp [waitPred, hh2]
            · apply adjOk_cons _ _ _ hT.2
              intro b _
              rfl
          | some e =>
            rw [exec_reading_msg_err cl env st n di ri t p h e hr hh hhe]
            have hT := ih .driving (close st) di (ri + 1)
            obtain ⟨eh, hh1, hh2⟩ := exec_head_driving cl env n (close st) di (ri + 1)
            constructor
            · apply adjOk_cons _ _ _ hT.1
              intro b hb
              rw [hh1] at hb
              cases hb
              simp [waitPred, isWait_false_of_redialOrStop eh hh2]
            · apply adjOk_cons _ _ _ hT.2
              intro b hb
              rw [hh1] at hb
              cases hb
              simp [redialPred, hh2]

/-! ## Trace projections of the step lemmas -/

theorem trace_zero (cl : Client) (env : Env) (mode : Mode) (st : ClientState) (di ri : ℕ) :
    (exec cl env mode st 0 di ri).trace = [.cancelObserved] := by
  rw [exec_zero]

theorem trace_driving_ok (cl : Client) (env : Env) (st : ClientState) (n di ri : ℕ)
    (hd : env.dial di = none) :
    (exec cl env .driving st (n + 1) di ri).trace
      = .dialOk :: (exec cl env .reading ⟨some di, true, 0⟩ n (di + 1) ri).trace := by
  rw [exec_driving_ok cl env st n di ri hd]

theorem trace_driving_fail_one (cl : Client) (env : Env) (st : ClientState) (di ri e : ℕ)
    (hd : env.dial di = some e) :
    (exec cl env .driving st 1 di ri).trace
      = [.dialFail st.reconnectCount
          (computeBackoff cl.config st.reconnectCount (env.jitter di)),
         .cancelObserved] := by
  rw [exec_driving_fail_one cl env st di ri e hd]

theorem trace_driving_fail_succ (cl : Client) (env : Env) (st : ClientState) (n di ri e : ℕ)
    (hd : env.dial di = some e) :
    (exec cl env .driving st (n + 2) di ri).trace
      = .dialFail st.reconnectCount
          (computeBackoff cl.config st.reconnectCount (env.jitter di))
        :: .wait (computeBackoff cl.config st.reconnectCount (env.jitter di))
        :: (exec cl env .driving { st with reconnectCount := st.reconnectCount + 1 }
              (n + 1) (di + 1) ri).trace := by
  rw [exec_driving_fail_succ cl env st n di ri e hd]

theorem trace_reading_err (cl : Client) (env : Env) (st : ClientState) (n di ri e : ℕ)
    (hr : env.read ri = .err e) :
    (exec cl env .reading st (n + 1) di ri).trace
      = .readErr e :: (exec cl env .driving (close st) n di (ri + 1)).trace := by
  rw [exec_reading_err cl env st n di ri e hr]

theorem trace_reading_msg_nil (cl : Client) (env : Env) (st : ClientState) (n di ri : ℕ)
    (t : ℤ) (p : List ℕ) (hr : env.read ri = .msg t p) (hh : cl.handler = none) :
    (exec cl env .reading st (n + 1) di ri).trace
      = .recvMsg :: (exec cl env .reading st n di (ri + 1)).trace := by
  rw [exec_reading_msg_nil cl env st n di ri t p hr hh]

theorem trace_reading_msg_ok (cl : Client) (env : Env) (st : ClientState) (n di ri : ℕ)
    (t : ℤ) (p : List ℕ) (h : MessageHandler) (hr : env.read ri = .msg t p)
    (hh : cl.handler = some h) (hhe : h t p = none) :
    (exec cl env .reading st (n + 1) di ri).trace
      = .recvMsg :: (exec cl env .reading st n di (ri + 1)).trace := by
  rw [exec_reading_msg_ok cl env st n di ri t p h hr hh hhe]

theorem trace_reading_msg_err (cl : Client) (env : Env) (st : ClientState) (n di ri : ℕ)
    (t : ℤ) (p : List ℕ) (h : MessageHandler) (e : ℕ) (hr : env.read ri = .msg t p)
    (hh : cl.handler = some h) (hhe : h t p = some e) :
    (exec cl env .reading st (n + 1) di ri).trace
      = .handlerErr e :: (exec cl env .driving (close st) n di (ri + 1)).trace := by
  rw [exec_reading_msg_err cl env st n di ri t p h e hr hh hhe]

/-! ## The attempt-counter discipline -/

theorem attemptsFrom_nil (k : ℕ) : attemptsFrom k [] = true := rfl

theorem attemptsFrom_dialFail (k a : ℕ) (d : ℤ) (t : List Event) :
    attemptsFrom k (.dialFail a d :: t) = ((a == k) && attemptsFrom (k + 1) t) := rfl

theorem attemptsFrom_dialOk (k : ℕ) (t : List Event) :
    attemptsFrom k (.dialOk :: t) = attemptsFrom 0 t := rfl

theorem attemptsFrom_wait (k : ℕ) (d : ℤ) (t : List Event) :
    attemptsFrom k (.wait d :: t) = attemptsFrom k t := rfl

theorem attemptsFrom_recvMsg (k : ℕ) (t : List Event) :
    attemptsFrom k (.recvMsg :: t) = attemptsFrom k t := rfl

theorem attemptsFrom_readErr (k e : ℕ) (t : List Event) :
    attemptsFrom k (.readErr e :: t) = attemptsFrom k t := rfl

theorem attemptsFrom_handlerErr (k e : ℕ) (t : List Event) :
    attemptsFrom k (.handlerErr e :: t) = attemptsFrom k t := rfl

theorem attemptsFrom_cancel (k : ℕ) (t : List Event) :
    attemptsFrom k (.cancelObserved :: t) = attemptsFrom k t := rfl

/-- The trace of a run respects the attempt-counter discipline, starting
from the state's current `reconnectCount`. -/
theorem exec_attempts (cl : Client) (env : Env) :
    ∀ (n : ℕ) (mode : Mode) (st : ClientState) (di ri : ℕ),
      attemptsFrom st.reconnectCount (exec cl env mode st n di ri).trace = true := by
  intro n
  induction n with
  | zero =>
    intro mode st di ri
    rw [trace_zero, attemptsFrom_cancel]
    rfl
  | succ n ih =>
    intro mode st di ri
    cases mode with
    | driving =>
      cases hd : env.dial di with
      | none =>
        rw [trace_driving_ok cl env st n di ri hd, attemptsFrom_dialOk]
        exact ih .reading ⟨some di, true, 0⟩ (di + 1) ri
      | some e =>
        cases n with
        | zero =>
          rw [trace_driving_fail_one cl env st di ri e hd, attemptsFrom_dialFail,
            attemptsFrom_cancel, attemptsFrom_nil]
          simp
        | succ m =>
          rw [trace_driving_fail_succ cl env st m di ri e hd, attemptsFrom_dialFail,
            attemptsFrom_wait]
          have := ih .driving { st with reconnectCount := st.reconnectCount + 1 } (di + 1) ri
          simp only [beq_self_eq_true, Bool.true_and]
          exact this
    | reading =>
      cases hr : env.read ri with
      | err e =>
        rw [trace_reading_err cl env st n di ri e hr, attemptsFrom_readErr]
        exact ih .driving (close st) di (ri + 1)
      | msg t p =>
        cases hh : cl.handler with
        | none =>
          rw [trace_reading_msg_nil cl env st n di ri t p hr hh, attemptsFrom_recvMsg]
          exact ih .reading st di (ri + 1)
        | some h =>
          cases hhe : h t p with
          | none =>
            rw [trace_reading_msg_ok cl env st n di ri t p h hr hh hhe, attemptsFrom_recvMsg]
            exact ih .reading st di (ri + 1)
          | some e =>
            rw [trace_reading_msg_err cl env st n di ri t p h e hr hh hhe,
              attemptsFrom_handlerErr]
            exact ih .driving (close st) di (ri + 1)

/-- Every `dialFail` event of a run records, together with its attempt
count `a`, a delay that is exactly `computeBackoff` at that same `a` for
one of the environment's random draws: the delay of the `N`-th
consecutive failure is computed from the pre-increment counter value. -/
theorem exec_dialFailDelays (cl : Client) (env : Env) :
    ∀ (n : ℕ) (mode : Mode) (st : ClientState) (di ri : ℕ) (a : ℕ) (d : ℤ),
      Event.dialFail a d ∈ (exec cl env mode st n di ri).trace →
      ∃ i, d = computeBackoff cl.config a (env.jitter i) := by
  intro n
  induction n with
  | zero =>
    intro mode st di ri a d h
    rw [trace_zero] at h
    simp at h
  | succ n ih =>
    intro mode st di ri a d h
    cases mode with
    | driving =>
      cases hd : env.dial di with
      | none =>
        rw [trace_driving_ok cl env st n di ri hd] at h
        rcases List.mem_cons.mp h with h1 | h2
        · cases h1
        · exact ih .reading ⟨some di, true, 0⟩ (di + 1) ri a d h2
      | some e =>
        cases n with
        | zero =>
          rw [trace_driving_fail_one cl env st di ri e hd] at h
          rcases List.mem_cons.mp h with h1 | h2
          · cases h1
            exact ⟨di, rfl⟩
          · simp at h2
        | succ m =>
          rw [trace_driving_fail_succ cl env st m di ri e hd] at h
          rcases List.mem_cons.mp h with h1 | h2
          · cases h1
            exact ⟨di, rfl⟩
          · rcases List.mem_cons.mp h2 with h3 | h4
            · cases h3
            · exact ih .driving { st with reconnectCount := st.reconnectCount + 1 }
                (di + 1) ri a d h4
    | reading =>
      cases hr : env.read ri with
      | err e =>
        rw [trace_reading_err cl env st n di ri e hr] at h
        rcases List.mem_cons.mp h with h1 | h2
        · cases h1
        · exact ih .driving (close st) di (ri + 1) a d h2
      | msg t p =>
        cases hh : cl.handler with
        | none =>
          rw [trace_reading_msg_nil cl env st n di ri t p hr hh] at h
          rcases List.mem_cons.mp h with h1 | h2
          · cases h1
          · exact ih .reading st di (ri + 1) a d h2
        | some hdl =>
          cases hhe : hdl t p with
          | none =>
            rw [trace_reading_msg_ok cl env st n di ri t p hdl hr hh hhe] at h
            rcases List.mem_cons.mp h with h1 | h2
            · cases h1
            · exact ih .reading st di (ri + 1) a d h2
          | some e =>
            rw [trace_reading_msg_err cl env st n di ri t p hdl e hr hh hhe] at h
            rcases List.mem_cons.mp h with h1 | h2
            · cases h1
            · exact ih .driving (close st) di (ri + 1) a d h2

/-- With no handler installed, a `readLoop` call reads and discards every
message: its trace is `k` discarded messages, followed by nothing (ended
by the cancellation check, state untouched) or by one transport read
error (connection closed). -/
theorem readLoop_nil_shape (cl : Client) (env : Env) (hh : cl.handler = none) :
    ∀ (n : ℕ) (st : ClientState) (ri : ℕ), ∃ k,
      ((readLoop cl env st n ri).st = st
        ∧ (readLoop cl env st n ri).ctx = 0
        ∧ (readLoop cl env st n ri).trace = List.replicate k Event.recvMsg)
      ∨ (∃ e, (readLoop cl env st n ri).st = close st
        ∧ (readLoop cl env st n ri).trace
            = List.replicate k Event.recvMsg ++ [Event.readErr e]) := by
  intro n
  induction n with
  | zero =>
    intro st ri
    exact ⟨0, Or.inl ⟨rfl, rfl, rfl⟩⟩
  | succ n ih =>
    intro st ri
    cases hr : env.read ri with
    | err e =>
      refine ⟨0, Or.inr ⟨e, ?_, ?_⟩⟩ <;> simp [readLoop, hr]
    | msg t p =>
      obtain ⟨k, hk⟩ := ih st (ri + 1)
      refine ⟨k + 1, ?_⟩
      rcases hk with ⟨h1, h2, h3⟩ | ⟨e, h1, h3⟩
      · exact Or.inl ⟨by simp [readLoop, hr, hh, h1], by simp [readLoop, hr, hh, h2],
          by simp [readLoop, hr, hh, h3, List.replicate_succ]⟩
      · exact Or.inr ⟨e, by simp [readLoop, hr, hh, h1],
          by simp [readLoop, hr, hh, h3, List.replicate_succ]⟩

/-- The client states reachable by the operations of the file, from the
freshly-constructed state: `connect` (with any dial outcome), `close`,
the two `reconnectCount` updates of `Run`, a whole `readLoop` call, and a
whole (remainder of a) `Run`. -/
inductive Reachable (cl : Client) (env : Env) : ClientState → Prop where
  | init : Reachable cl env ⟨none, false, 0⟩
  | connectStep (st : ClientState) (d : Option ℕ) (i : ℕ) :
      Reachable cl env st → Reachable cl env (connect st d i).1
  | closeStep (st : ClientState) : Reachable cl env st → Reachable cl env (close st)
  | bumpStep (st : ClientState) : Reachable cl env st →
      Reachable cl env { st with reconnectCount := st.reconnectCount + 1 }
  | resetStep (st : ClientState) : Reachable cl env st →
      Reachable cl env { st with reconnectCount := 0 }
  | readStep (st : ClientState) (n ri : ℕ) : Reachable cl env st →
      Reachable cl env (readLoop cl env st n ri).st
  | runStep (st : ClientState) (mode : Mode) (n di ri : ℕ) : Reachable cl env st →
      Reachable cl env (exec cl env mode st n di ri).st

/-! ## Claim theorems about the state machine -/

/-- C2: for every environment (arbitrary dial failures, transport read
errors and handler errors) and every cancellation budget, `Run` returns
exactly the context's error, its last observable event is the observation
of cancellation (it never returns for any other reason), and at the
moment it returns the connection handle is cleared and the connected
flag is false. -/
theorem run_terminates_only_on_cancellation (cl : Client) (env : Env) (ctx : ℕ) :
    (run cl env ctx).ret = env.ctxErr
    ∧ (∃ pre, (run cl env ctx).trace = pre ++ [Event.cancelObserved])
    ∧ (run cl env ctx).st.conn = none
    ∧ (run cl env ctx).st.isConnected = false := by
  have hd := (exec_disc cl env ctx).2 ⟨none, false, 0⟩ 0 0 ⟨rfl, rfl⟩
  exact ⟨exec_ret cl env ctx .driving ⟨none, false, 0⟩ 0 0,
    exec_trace_end cl env ctx .driving ⟨none, false, 0⟩ 0 0, hd.1, hd.2⟩

/-- C5: the attempt counter counts consecutive dial failures: the read
loop never changes it (so handler errors and mid-stream drops leave it
alone); in every run trace each failed dial records as its attempt the
number of consecutive failures since the last success (a failure
increments the count, a success resets it to 0 — so after any success the
next failure uses attempt 0); and each recorded backoff delay is exactly
`computeBackoff` evaluated at that pre-increment attempt count. -/
theorem reconnectCount_discipline (cl : Client) (env : Env) :
    (∀ (n : ℕ) (st : ClientState) (ri : ℕ),
        (readLoop cl env st n ri).st.reconnectCount = st.reconnectCount)
    ∧ (∀ ctx, attemptsFrom 0 (run cl env ctx).trace = true)
    ∧ (∀ (ctx a : ℕ) (d : ℤ), Event.dialFail a d ∈ (run cl env ctx).trace →
        ∃ i, d = computeBackoff cl.config a (env.jitter i)) := by
  refine ⟨fun n st ri => readLoop_reconnectCount cl env n st ri,
    fun ctx => ?_, fun ctx a d h => ?_⟩
  · exact exec_attempts cl env ctx .driving ⟨none, false, 0⟩ 0 0
  · exact exec_dialFailDelays cl env ctx .driving ⟨none, false, 0⟩ 0 0 a d h

/-- C6: in every run trace a backoff wait appears only immediately after
a failed dial attempt (in particular, never after the read loop returns
and never first), and each read-loop-ending event (transport read error
or handler error) is immediately followed by a new dial attempt or by the
cancellation observation — no delay step in between. -/
theorem no_backoff_after_stream_end (cl : Client) (env : Env) (ctx : ℕ) :
    adjOk waitPred (run cl env ctx).trace = true
    ∧ adjOk redialPred (run cl env ctx).trace = true
    ∧ (∀ e rest, (run cl env ctx).trace = e :: rest → isWait e = false) := by
  refine ⟨(exec_adj cl env ctx .driving ⟨none, false, 0⟩ 0 0).1,
    (exec_adj cl env ctx .driving ⟨none, false, 0⟩ 0 0).2, ?_⟩
  intro e rest h
  obtain ⟨e2, hh1, hh2⟩ := exec_head_driving cl env ctx ⟨none, false, 0⟩ 0 0
  rw [show (run cl env ctx).trace = (exec cl env .driving ⟨none, false, 0⟩ ctx 0 0).trace
    from rfl] at h
  rw [h, List.head?_cons] at hh1
  injection hh1 with h3
  subst h3
  exact isWait_false_of_redialOrStop e hh2

/-- C7: when the handler returns an error for a received message, the
read loop closes the connection (clearing the handle and the flag) and
returns at once — byte-for-byte the same result shape as a transport read
failure — and the handler's error value is never the return value of
`Run`, which returns the context's error. -/
theorem handler_error_closes (cl : Client) (env env2 : Env) (st : ClientState)
    (n ri : ℕ) (h : MessageHandler) (t : ℤ) (p : List ℕ) (e e2 : ℕ)
    (hh : cl.handler = some h) (hr : env.read ri = .msg t p) (he : h t p = some e)
    (hr2 : env2.read ri = .err e2) :
    readLoop cl env st (n + 1) ri = ⟨close st, n, ri + 1, [.handlerErr e]⟩
    ∧ (close st).conn = none
    ∧ (close st).isConnected = false
    ∧ readLoop cl env2 st (n + 1) ri = ⟨close st, n, ri + 1, [.readErr e2]⟩
    ∧ (∀ ctx, (run cl env ctx).ret = env.ctxErr) := by
  refine ⟨?_, rfl, rfl, ?_,
    fun ctx => exec_ret cl env ctx .driving ⟨none, false, 0⟩ 0 0⟩
  · simp [readLoop, hr, hh, he]
  · simp [readLoop, hr2]

/-- C8: `connect` is atomic with respect to client state: on dial failure
it returns the dial error unchanged and leaves the handle, the flag and
the attempt counter exactly as they were; on success it installs the
handle and sets the flag to true together, leaves the counter unchanged
and returns no error. -/
theorem connect_atomic (st : ClientState) (e i : ℕ) :
    connect st (some e) i = (st, some e)
    ∧ (connect st (some e) i).1.conn = st.conn
    ∧ (connect st (some e) i).1.isConnected = st.isConnected
    ∧ (connect st (some e) i).1.reconnectCount = st.reconnectCount
    ∧ (connect st none i).1.conn = some i
    ∧ (connect st none i).1.isConnected = true
    ∧ (connect st none i).1.reconnectCount = st.reconnectCount
    ∧ (connect st none i).2 = none :=
  ⟨rfl, rfl, rfl, rfl, rfl, rfl, rfl, rfl⟩

/-- C9: in every reachable client state (initially and after any sequence
of `connect`, `close`, counter updates, read loops and run segments), the
flag and the handle agree as one unit: `IsConnected` reports true exactly
when a connection handle is installed — an observer never sees a torn
state. -/
theorem isConnected_never_torn (cl : Client) (env : Env) (st : ClientState)
    (h : Reachable cl env st) : IsConnected st = true ↔ st.conn ≠ none := by
  have hok : stOk st := by
    induction h with
    | init => rfl
    | connectStep st d i _ ih =>
      cases d with
      | none => rfl
      | some e => exact ih
    | closeStep st _ _ => exact stOk_close st
    | bumpStep st _ ih => exact ih
    | resetStep st _ ih => exact ih
    | readStep st n ri _ ih => exact readLoop_stOk cl env n st ri ih
    | runStep st mode n di ri _ ih => exact exec_stOk cl env n mode st di ri ih
  unfold IsConnected
  rw [stOk] at hok
  rw [hok]
  cases st.conn <;> simp

/-- C10: `NewClient` accepts a nil handler whenever the configuration is
valid, and a client with a nil handler reads and discards every incoming
message without invoking any handler: the read loop's trace is some
number of discarded messages, it never disconnects because of a message,
and it ends only on a transport read error (closing the connection) or on
observing cancellation (leaving the state untouched). -/
theorem nil_handler_discards (cfg : Config) (env : Env) (hv : cfg.validate = true) :
    NewClient cfg none = some ⟨cfg, none⟩
    ∧ ∀ (n : ℕ) (st : ClientState) (ri : ℕ), ∃ k,
        ((readLoop ⟨cfg, none⟩ env st n ri).st = st
          ∧ (readLoop ⟨cfg, none⟩ env st n ri).ctx = 0
          ∧ (readLoop ⟨cfg, none⟩ env st n ri).trace = List.replicate k Event.recvMsg)
        ∨ (∃ e, (readLoop ⟨cfg, none⟩ env st n ri).st = close st
          ∧ (readLoop ⟨cfg, none⟩ env st n ri).trace
              = List.replicate k Event.recvMsg ++ [Event.readErr e]) := by
  constructor
  · simp [NewClient, hv]
  · exact readLoop_nil_shape ⟨cfg, none⟩ env rfl

/-! ## Concrete instances for the witnesses -/

/-- A valid scenario configuration: base 100, max 1600, no jitter. -/
def cfgA : Config := ⟨"wss://jetstream", 100, 1600, 0⟩

/-- An environment whose dials all succeed and whose reads all fail. -/
def envA : Env := ⟨fun _ => none, fun _ => .err 0, fun _ => 0, 7⟩

/-- A handler that rejects every message with error 5. -/
def hB : MessageHandler := fun _ _ => some 5

/-- A client whose handler rejects every message. -/
def clB : Client := ⟨cfgA, some hB⟩

/-- An environment that always delivers the message (1, [2]). -/
def envB : Env := ⟨fun _ => none, fun _ => .msg 1 [2], fun _ => 0, 7⟩

/-- An environment whose reads always fail with error 3. -/
def envB2 : Env := ⟨fun _ => none, fun _ => .err 3, fun _ => 0, 7⟩

/-- A client with the scenario configuration and no handler. -/
def clA : Client := ⟨cfgA, none⟩

theorem handler_error_closes_witness :
    (clB.handler = some hB ∧ envB.read 0 = .msg 1 [2] ∧ hB 1 [2] = some 5
      ∧ envB2.read 0 = .err 3)
    ∧ readLoop clB envB ⟨some 0, true, 0⟩ 1 0
        = ⟨close ⟨some 0, true, 0⟩, 0, 1, [.handlerErr 5]⟩ :=
  ⟨⟨rfl, rfl, rfl, rfl⟩,
    (handler_error_closes clB envB envB2 ⟨some 0, true, 0⟩ 0 0 hB 1 [2] 5 3
      rfl rfl rfl rfl).1⟩

theorem isConnected_never_torn_witness :
    Reachable clA envA ⟨none, false, 0⟩
    ∧ (IsConnected ⟨none, false, 0⟩ = true ↔ (⟨none, false, 0⟩ : ClientState).conn ≠ none) :=
  ⟨.init, isConnected_never_torn clA envA ⟨none, false, 0⟩ .init⟩

theorem nil_handler_discards_witness :
    cfgA.validate = true
    ∧ NewClient cfgA none = some ⟨cfgA, none⟩ :=
  ⟨by decide, (nil_handler_discards cfgA envA (by decide)).1⟩

end Subcults.Indexer
